import Mathlib

/-!
Verification of the sample-entropy core of the `sample_entropy` repository.

The repository computes the classic single-scale sample-entropy statistic for
blood-pressure waveforms.  The algorithmic core lives in `src/main.rs`
(`construct_templates`, `is_match`, `get_matches`, `sample_entropy`, `mean`,
`standard_deviation`, `detrend_data`, `compute_sampen_for_wave`,
`compute_sampen_for_vital_file`) with a refactored copy of the estimator in
`src/stats.rs` (namespace `Stats` below).

Modelling conventions:
* Rust `f32` samples are modelled by an arbitrary linear ordered field `α`
  (instantiated at `ℚ` for executable instances and at `ℝ` where square roots
  are needed).  Rounding is abstracted away; the combinatorial structure
  (template construction, Chebyshev comparisons, match counting) is exact.
* Rust in-bounds indexing `data[j]` is modelled as `List.getD data j 0`; every
  indexing site in the source is in bounds at the modelled call sites.
* The final floating-point steps `ratio = a / b; -(ratio).ln()` are modelled by
  `SampenResult`, making the IEEE-754 special cases of the `f32` computation
  explicit: `0/0` gives NaN, `a/0` with `a > 0` gives `+inf` whose negated log
  is `-inf`, and `-ln 0 = +inf`.  The Rust function has no error channel: it
  always returns an `f32`, hence the model is total.
* `Stats.construct_templates` computes `ts_data.len() - window_size + 1` in
  `usize`; when `window_size > len` the subtraction overflows (a panic in
  debug builds).  This failure is modelled by `Option`, with `none` for the
  overflow case.
-/

namespace SampleEntropy

variable {α : Type} [LinearOrderedField α]

/-- Value of the `f32` sample-entropy computation, with the IEEE-754
special values that `-(a/b).ln()` can produce made explicit. -/
inductive SampenResult where
  | val : ℝ → SampenResult
  | posInf : SampenResult
  | negInf : SampenResult
  | nan : SampenResult

/-- Models the tail of `sample_entropy` in `src/main.rs` and `src/stats.rs`:
`let ratio = matches_m_plus_1 / matches_m; -(ratio).ln()` on `f32`, with the
IEEE-754 cases for a zero numerator or denominator spelled out.  The finite
case is idealised as an exact real logarithm. -/
noncomputable def sampenOfCounts (matches_m_plus_1 matches_m : ℕ) : SampenResult :=
  if matches_m = 0 then
    (if matches_m_plus_1 = 0 then SampenResult.nan else SampenResult.negInf)
  else if matches_m_plus_1 = 0 then SampenResult.posInf
  else SampenResult.val (-(Real.log ((matches_m_plus_1 : ℝ) / (matches_m : ℝ))))

/-- `construct_templates` from `src/main.rs`: for `i in m..data.len()+1`,
push the template `[data[i-m], ..., data[i-1]]`. -/
def construct_templates (m : ℕ) (data : List α) : List (List α) :=
  (List.range' m (data.length + 1 - m)).map
    (fun i => (List.range' (i - m) m).map (fun j => data.getD j 0))

/-- `is_match` from `src/main.rs`: iterate over the indices of `vec_1` and
report a match when every elementwise absolute difference is `< r` (the loop
early-returns at the first difference `>= r`). -/
def is_match (vec_1 vec_2 : List α) (r : α) : Bool :=
  (List.range vec_1.length).all (fun i => decide (|vec_1.getD i 0 - vec_2.getD i 0| < r))

/-- `get_matches` from `src/main.rs`: the double loop
`for i in 0..len { for j in i+1..len { if is_match .. { matches += 1 } } }`
followed by `matches * 2`. -/
def get_matches (templates : List (List α)) (r : α) : ℕ :=
  (((List.range templates.length).map (fun i =>
      (List.range' (i + 1) (templates.length - (i + 1))).countP
        (fun j => is_match (templates.getD i []) (templates.getD j []) r))).sum) * 2

/-- `sample_entropy` from `src/main.rs`: build templates at sizes `m` and
`m+1`, count matches with the same `r`, and apply the ratio / log tail. -/
noncomputable def sample_entropy (m : ℕ) (r : α) (data : List α) : SampenResult :=
  sampenOfCounts (get_matches (construct_templates (m + 1) data) r)
    (get_matches (construct_templates m data) r)

/-- `mean` from `src/main.rs` / `src/stats.rs`: sum divided by length. -/
def mean (data : List α) : α := data.sum / (data.length : α)

/-- `standard_deviation` from `src/main.rs` / `src/stats.rs`: population
standard deviation, `sqrt(mean of squared deviations)`.  Stated over `ℝ`
because of the square root. -/
noncomputable def standard_deviation (data : List ℝ) : ℝ :=
  Real.sqrt ((data.map (fun x => (x - mean data) ^ 2)).sum / (data.length : ℝ))

/-- The local `xbar` of `detrend_data`: `((len as f32) + 1) / 2`. -/
def detrend_xbar (data : List α) : α := ((data.length : α) + 1) / 2

/-- The `numerator` sum inside `detrend_data`: iterate the enumerated data and
sum `((ix as f32) + 1 - xbar) * (y - ybar)`. -/
def detrend_numerator (data : List α) : α :=
  (data.enum.map (fun p => ((p.1 : α) + 1 - detrend_xbar data) * (p.2 - mean data))).sum

/-- The `denominator` sum inside `detrend_data`: sum of
`((ix as f32) + 1 - xbar).powf(2.0)`. -/
def detrend_denominator (data : List α) : α :=
  (data.enum.map (fun p => ((p.1 : α) + 1 - detrend_xbar data) ^ 2)).sum

/-- `beta_hat` of `detrend_data`: the OLS slope estimate. -/
def beta_hat (data : List α) : α := detrend_numerator data / detrend_denominator data

/-- `alpha_hat` of `detrend_data`: the OLS intercept estimate. -/
def alpha_hat (data : List α) : α := mean data - beta_hat data * detrend_xbar data

/-- `detrend_data` from `src/main.rs` / `src/stats.rs`: subtract the fitted
line, output sample `ix` (0-based) being `val - alpha_hat - beta_hat*(ix+1)`. -/
def detrend_data (data : List α) : List α :=
  data.enum.map (fun p => p.2 - alpha_hat data - beta_hat data * ((p.1 : α) + 1))

/-- `compute_sampen_for_wave` from `src/main.rs`: derive the tolerance
`r = standard_deviation(data) * 0.2` and run the estimator. -/
noncomputable def compute_sampen_for_wave (m : ℕ) (data : List ℝ) : SampenResult :=
  sample_entropy m (standard_deviation data * 0.2) data

/-- The `VitalFile` struct of `src/main.rs` (waveform payload). -/
structure VitalFile where
  name : String
  sbp : List ℝ
  mbp : List ℝ
  dbp : List ℝ

/-- The `VitalEntropies` struct of `src/main.rs`, with the `f32` entropy
fields modelled by `SampenResult`. -/
structure VitalEntropies where
  name : String
  sbp_sampen : SampenResult
  mbp_sampen : SampenResult
  dbp_sampen : SampenResult

/-- `compute_sampen_for_vital_file` from `src/main.rs`: detrend each channel
and estimate its entropy independently. -/
noncomputable def compute_sampen_for_vital_file (m : ℕ) (vitalf : VitalFile) :
    VitalEntropies :=
  { name := vitalf.name
    sbp_sampen := compute_sampen_for_wave m (detrend_data vitalf.sbp)
    mbp_sampen := compute_sampen_for_wave m (detrend_data vitalf.mbp)
    dbp_sampen := compute_sampen_for_wave m (detrend_data vitalf.dbp) }

/-- Chebyshev distance as the spec's glossary defines it: the maximum over
positions of the elementwise absolute differences (used only to state claims;
the code tests it via `is_match`). -/
def chebyshev_dist (vec_1 vec_2 : List α) : α :=
  ((List.range vec_1.length).map (fun i => |vec_1.getD i 0 - vec_2.getD i 0|)).foldr max 0

namespace Stats

/-- `construct_templates` from `src/stats.rs`: `num_windows = len - window_size
+ 1` in `usize`, then slices `ts_data[x..x+window_size]`.  The `usize`
subtraction overflows when `window_size > len`; that failure is `none`. -/
def construct_templates (window_size : ℕ) (ts_data : List α) :
    Option (List (List α)) :=
  if window_size ≤ ts_data.length then
    some ((List.range (ts_data.length - window_size + 1)).map
      (fun x => (ts_data.drop x).take window_size))
  else none

/-- `is_match` from `src/stats.rs`: zip the two vectors and require every
elementwise absolute difference to be `< r`. -/
def is_match (vec_1 vec_2 : List α) (r : α) : Bool :=
  (vec_1.zip vec_2).all (fun x => decide (|x.1 - x.2| < r))

/-- `get_matches` from `src/stats.rs`: `combinations(2)` enumerates the
positional pairs `i < j` of the template vector in order; the matching pairs
are counted and the count is doubled. -/
def get_matches (templates : List (List α)) (r : α) : ℕ :=
  (((List.range templates.length).map (fun i =>
      (List.range' (i + 1) (templates.length - (i + 1))).countP
        (fun j => is_match (templates.getD i []) (templates.getD j []) r))).sum) * 2

/-- `sample_entropy` from `src/stats.rs`: same pipeline as `src/main.rs`, but
built on the `Stats` versions (whose template construction can overflow). -/
noncomputable def sample_entropy (m : ℕ) (r : α) (data : List α) :
    Option SampenResult := do
  let templates_size_m ← construct_templates m data
  let templates_size_m_plus_1 ← construct_templates (m + 1) data
  pure (sampenOfCounts (get_matches templates_size_m_plus_1 r)
    (get_matches templates_size_m r))

end Stats

/-! Helper definitions and lemmas for the verification. -/

/-- Abbreviation used in proofs: the window of `data` of length `m` starting at
offset `i`, in the indexed form produced by `construct_templates`. -/
def templ (data : List α) (i m : ℕ) : List α :=
  (List.range' i m).map (fun j => data.getD j 0)

theorem construct_templates_eq_map (m : ℕ) (data : List α) :
    construct_templates m data =
      (List.range (data.length + 1 - m)).map (fun i => templ data i m) := by
  unfold construct_templates
  rw [List.range'_eq_map_range, List.map_map]
  refine List.map_congr_left (fun i _ => ?_)
  simp only [Function.comp_apply, templ, Nat.add_sub_cancel_left m i]

theorem length_construct_templates (m : ℕ) (data : List α) :
    (construct_templates m data).length = data.length + 1 - m := by
  rw [construct_templates_eq_map]; simp

theorem length_templ (data : List α) (i m : ℕ) : (templ data i m).length = m := by
  simp [templ]

theorem construct_templates_getD (m : ℕ) (data : List α) (i : ℕ)
    (h : i < data.length + 1 - m) :
    (construct_templates m data).getD i [] = templ data i m := by
  rw [construct_templates_eq_map,
    List.getD_eq_getElem _ _ (by simpa using h), List.getElem_map]
  congr 1
  exact List.getElem_range i _

theorem templ_getD (data : List α) (i m t : ℕ) (ht : t < m) :
    (templ data i m).getD t 0 = data.getD (i + t) 0 := by
  rw [List.getD_eq_getElem _ _ (by simp [length_templ]; omega)]
  simp [templ]

theorem mem_construct_templates_length {m : ℕ} {data : List α} {t : List α}
    (h : t ∈ construct_templates m data) : t.length = m := by
  rw [construct_templates_eq_map] at h
  obtain ⟨i, _, rfl⟩ := List.mem_map.mp h
  exact length_templ data i m

theorem templ_eq_drop_take (data : List α) (i m : ℕ) (h : i + m ≤ data.length) :
    templ data i m = (data.drop i).take m := by
  refine List.ext_getElem (by simp [length_templ]; omega) (fun t ht ht' => ?_)
  rw [List.getElem_take, List.getElem_drop]
  have htm : t < m := by simpa [length_templ] using ht
  have := templ_getD data i m t htm
  rw [List.getD_eq_getElem _ _ ht, List.getD_eq_getElem _ _ (by omega)] at this
  exact this

theorem is_match_iff (vec_1 vec_2 : List α) (r : α) :
    is_match vec_1 vec_2 r = true ↔
      ∀ i < vec_1.length, |vec_1.getD i 0 - vec_2.getD i 0| < r := by
  simp [is_match, List.all_eq_true]

theorem is_match_templ_iff (data : List α) (i j m : ℕ) (r : α) :
    is_match (templ data i m) (templ data j m) r = true ↔
      ∀ t < m, |data.getD (i + t) 0 - data.getD (j + t) 0| < r := by
  rw [is_match_iff]
  simp only [length_templ]
  constructor
  · intro h t ht
    have := h t ht
    rwa [templ_getD data i m t ht, templ_getD data j m t ht] at this
  · intro h t ht
    rw [templ_getD data i m t ht, templ_getD data j m t ht]
    exact h t ht

theorem sum_map_list_range {M : Type} [AddCommMonoid M] (n : ℕ) (f : ℕ → M) :
    ((List.range n).map f).sum = ∑ i ∈ Finset.range n, f i := by
  induction n with
  | zero => simp
  | succ k ih =>
    rw [List.range_succ, Finset.sum_range_succ, List.map_append, List.sum_append, ih]
    simp

theorem countP_list_range_eq_card (n : ℕ) (p : ℕ → Bool) :
    (List.range n).countP p = ((Finset.range n).filter (fun j => p j = true)).card := by
  induction n with
  | zero => simp
  | succ k ih =>
    rw [List.range_succ, List.countP_append, Finset.range_succ, Finset.filter_insert]
    by_cases h : p k = true
    · rw [if_pos h, Finset.card_insert_of_not_mem (by simp)]
      simp [h, ih, List.countP_cons]
    · rw [if_neg h]
      simp [h, ih, List.countP_cons]

theorem countP_inner_range_eq_card (n i : ℕ) (hi : i < n) (p : ℕ → Bool) :
    (List.range' (i + 1) (n - (i + 1))).countP p =
      ((Finset.range n).filter (fun j => i < j ∧ p j = true)).card := by
  have hsplit : List.range' 0 (i + 1) ++ List.range' (i + 1) (n - (i + 1)) =
      List.range n := by
    rw [List.range_eq_range']
    have := List.range'_append 0 (i + 1) (n - (i + 1)) 1
    simpa [Nat.one_mul, Nat.add_comm (n - (i + 1)) (i + 1),
      Nat.add_sub_cancel' (by omega : i + 1 ≤ n)] using this
  have hq : (List.range n).countP (fun j => decide (i < j) && p j) =
      (List.range' (i + 1) (n - (i + 1))).countP p := by
    rw [← hsplit, List.countP_append]
    have h0 : (List.range' 0 (i + 1)).countP (fun j => decide (i < j) && p j) = 0 := by
      rw [List.countP_eq_zero]
      intro a ha
      have : a < i + 1 := by
        have := List.mem_range'_1.mp ha
        omega
      simp [Nat.not_lt.mpr (by omega : a ≤ i)]
    rw [h0, Nat.zero_add]
    refine List.countP_congr (fun a ha => ?_)
    have : i + 1 ≤ a := (List.mem_range'_1.mp ha).1
    simp [Nat.lt_of_lt_of_le (Nat.lt_succ_self i) this]
  rw [← hq, countP_list_range_eq_card]
  refine congrArg Finset.card (Finset.filter_congr (fun j _ => ?_))
  simp

theorem sum_fiber_card_eq_card_pairs (n : ℕ) (P : ℕ → ℕ → Bool) :
    ∑ i ∈ Finset.range n, ((Finset.range n).filter (fun j => i < j ∧ P i j = true)).card =
      ((Finset.range n ×ˢ Finset.range n).filter
        (fun q => q.1 < q.2 ∧ P q.1 q.2 = true)).card := by
  rw [Finset.card_eq_sum_card_fiberwise
    (f := Prod.fst) (t := Finset.range n)
    (fun q hq => by
      have := Finset.mem_filter.mp hq
      exact (Finset.mem_product.mp this.1).1)]
  refine Finset.sum_congr rfl (fun i _ => ?_)
  refine (Finset.card_bij (fun q _ => q.2) ?_ ?_ ?_).symm
  · intro q hq
    obtain ⟨hq1, hq2⟩ := Finset.mem_filter.mp hq
    obtain ⟨hq3, hq4⟩ := Finset.mem_filter.mp hq1
    rw [Finset.mem_filter]
    exact ⟨(Finset.mem_product.mp hq3).2, by rw [hq2] at hq4; exact hq4.1, by
      rw [hq2] at hq4; exact hq4.2⟩
  · intro q hq q' hq' he
    obtain ⟨_, hq2⟩ := Finset.mem_filter.mp hq
    obtain ⟨_, hq'2⟩ := Finset.mem_filter.mp hq'
    exact Prod.ext (hq2.trans hq'2.symm) he
  · intro j hj
    obtain ⟨hj1, hj2, hj3⟩ := Finset.mem_filter.mp hj
    refine ⟨(i, j), Finset.mem_filter.mpr ⟨Finset.mem_filter.mpr ⟨?_, hj2, hj3⟩, rfl⟩, rfl⟩
    exact Finset.mem_product.mpr ⟨Finset.mem_range.mpr (by
      have := Finset.mem_range.mp hj1; omega), hj1⟩

theorem get_matches_eq_card (templates : List (List α)) (r : α) :
    get_matches templates r =
      2 * ((Finset.range templates.length ×ˢ Finset.range templates.length).filter
        (fun q => q.1 < q.2 ∧
          is_match (templates.getD q.1 []) (templates.getD q.2 []) r = true)).card := by
  unfold get_matches
  rw [sum_map_list_range, Nat.mul_comm]
  congr 1
  have h1 := sum_fiber_card_eq_card_pairs templates.length
    (fun i j => is_match (templates.getD i []) (templates.getD j []) r)
  rw [← h1]
  refine Finset.sum_congr rfl (fun i hi => ?_)
  exact countP_inner_range_eq_card templates.length i (Finset.mem_range.mp hi) _

theorem foldr_max_lt_iff (l : List α) (c r : α) :
    l.foldr max c < r ↔ (∀ x ∈ l, x < r) ∧ c < r := by
  induction l with
  | nil => simp
  | cons a t ih =>
    simp only [List.foldr_cons, max_lt_iff, ih, List.mem_cons]
    constructor
    · rintro ⟨h1, h2, h3⟩
      exact ⟨fun x hx => hx.elim (fun he => he ▸ h1) (h2 x), h3⟩
    · rintro ⟨h1, h2⟩
      exact ⟨h1 a (Or.inl rfl), fun x hx => h1 x (Or.inr hx), h2⟩

theorem chebyshev_dist_lt_iff (vec_1 vec_2 : List α) (r : α) (h : 1 ≤ vec_1.length) :
    chebyshev_dist vec_1 vec_2 < r ↔ is_match vec_1 vec_2 r = true := by
  rw [chebyshev_dist, foldr_max_lt_iff, is_match_iff]
  constructor
  · rintro ⟨h1, -⟩ i hi
    exact h1 _ (List.mem_map.mpr ⟨i, List.mem_range.mpr hi, rfl⟩)
  · intro h1
    refine ⟨fun x hx => ?_, ?_⟩
    · obtain ⟨i, hi, rfl⟩ := List.mem_map.mp hx
      exact h1 i (List.mem_range.mp hi)
    · exact lt_of_le_of_lt (abs_nonneg _) (h1 0 (by omega))

theorem chebyshev_dist_comm (vec_1 vec_2 : List α) (h : vec_1.length = vec_2.length) :
    chebyshev_dist vec_1 vec_2 = chebyshev_dist vec_2 vec_1 := by
  unfold chebyshev_dist
  rw [h]
  congr 1
  exact List.map_congr_left (fun i _ => abs_sub_comm _ _)

theorem getD_mem_of_lt {β : Type} (l : List β) (i : ℕ) (d : β) (h : i < l.length) :
    l.getD i d ∈ l := by
  rw [List.getD_eq_getElem _ _ h]
  exact List.getElem_mem h

theorem is_match_eq_false_of_nonpos (vec_1 vec_2 : List α) (r : α)
    (h1 : 1 ≤ vec_1.length) (hr : r ≤ 0) : is_match vec_1 vec_2 r = false := by
  rw [Bool.eq_false_iff]
  intro hc
  have := (is_match_iff vec_1 vec_2 r).mp hc 0 (by omega)
  have h0 := abs_nonneg (vec_1.getD 0 0 - vec_2.getD 0 0)
  linarith

theorem get_matches_eq_zero_of_nonpos (templates : List (List α)) (r : α)
    (hr : r ≤ 0) (hlen : ∀ t ∈ templates, 1 ≤ t.length) :
    get_matches templates r = 0 := by
  rw [get_matches_eq_card]
  suffices hs : ((Finset.range templates.length ×ˢ Finset.range templates.length).filter
      (fun q => q.1 < q.2 ∧
        is_match (templates.getD q.1 []) (templates.getD q.2 []) r = true)) = ∅ by
    rw [hs]; simp
  rw [Finset.filter_eq_empty_iff]
  rintro q hq ⟨hlt, hmatch⟩
  obtain ⟨h1, _⟩ := Finset.mem_product.mp hq
  have hmem := getD_mem_of_lt templates q.1 [] (Finset.mem_range.mp h1)
  rw [is_match_eq_false_of_nonpos _ _ _ (hlen _ hmem) hr] at hmatch
  exact Bool.false_ne_true hmatch

theorem get_matches_eq_zero_of_le_one (templates : List (List α)) (r : α)
    (h : templates.length ≤ 1) : get_matches templates r = 0 := by
  rw [get_matches_eq_card]
  suffices hs : ((Finset.range templates.length ×ˢ Finset.range templates.length).filter
      (fun q => q.1 < q.2 ∧
        is_match (templates.getD q.1 []) (templates.getD q.2 []) r = true)) = ∅ by
    rw [hs]; simp
  rw [Finset.filter_eq_empty_iff]
  rintro q hq ⟨hlt, -⟩
  obtain ⟨h1, h2⟩ := Finset.mem_product.mp hq
  have := Finset.mem_range.mp h1
  have := Finset.mem_range.mp h2
  omega

theorem stats_is_match_eq (vec_1 vec_2 : List α) (r : α)
    (h : vec_1.length ≤ vec_2.length) :
    Stats.is_match vec_1 vec_2 r = is_match vec_1 vec_2 r := by
  apply Bool.coe_iff_coe.mp
  rw [is_match_iff]
  unfold Stats.is_match
  rw [List.all_eq_true]
  constructor
  · intro hz i hi
    have hzlen : i < (vec_1.zip vec_2).length := by rw [List.length_zip]; omega
    have hmem := hz _ (List.mem_iff_getElem.mpr ⟨i, hzlen, rfl⟩)
    rw [List.getElem_zip] at hmem
    rw [List.getD_eq_getElem _ _ hi, List.getD_eq_getElem _ _ (by omega)]
    simpa using hmem
  · intro h1 x hx
    obtain ⟨i, hzlen, rfl⟩ := List.mem_iff_getElem.mp hx
    rw [List.getElem_zip]
    have hi : i < vec_1.length := by rw [List.length_zip] at hzlen; omega
    have := h1 i hi
    rw [List.getD_eq_getElem _ _ hi, List.getD_eq_getElem _ _ (by omega)] at this
    simpa using this

theorem stats_construct_templates_eq (window_size : ℕ) (ts_data : List α)
    (h : window_size ≤ ts_data.length) :
    Stats.construct_templates window_size ts_data =
      some (construct_templates window_size ts_data) := by
  unfold Stats.construct_templates
  rw [if_pos h]
  congr 1
  rw [construct_templates_eq_map]
  have hc : ts_data.length - window_size + 1 = ts_data.length + 1 - window_size := by
    omega
  rw [hc]
  refine List.map_congr_left (fun i hi => ?_)
  exact (templ_eq_drop_take ts_data i window_size
    (by have := List.mem_range.mp hi; omega)).symm

theorem stats_get_matches_eq (templates : List (List α)) (r : α) (k : ℕ)
    (hk : ∀ t ∈ templates, t.length = k) :
    Stats.get_matches templates r = get_matches templates r := by
  unfold Stats.get_matches get_matches
  congr 1
  congr 1
  refine List.map_congr_left (fun i hi => ?_)
  refine List.countP_congr (fun j hj => ?_)
  have hi' : i < templates.length := List.mem_range.mp hi
  have hj' : j < templates.length := by
    have := List.mem_range'_1.mp hj
    omega
  rw [stats_is_match_eq _ _ r (le_of_eq
    ((hk _ (getD_mem_of_lt templates i [] hi')).trans
      (hk _ (getD_mem_of_lt templates j [] hj')).symm))]

theorem stats_sample_entropy_eq (m : ℕ) (r : α) (data : List α)
    (h : m + 1 ≤ data.length) :
    Stats.sample_entropy m r data = some (sample_entropy m r data) := by
  unfold Stats.sample_entropy sample_entropy
  rw [stats_construct_templates_eq m data (by omega),
    stats_construct_templates_eq (m + 1) data h]
  simp only [Option.bind_eq_bind, Option.some_bind]
  rw [stats_get_matches_eq _ r (m + 1) (fun t ht => mem_construct_templates_length ht),
    stats_get_matches_eq _ r m (fun t ht => mem_construct_templates_length ht)]
  rfl

theorem length_detrend_data (data : List α) :
    (detrend_data data).length = data.length := by
  simp [detrend_data]

theorem enum_map_getD (data : List α) (f : ℕ × α → α) (i : ℕ) (d : α)
    (h : i < data.length) :
    (data.enum.map f).getD i d = f (i, data.getD i 0) := by
  rw [List.getD_eq_getElem _ _ (by simpa [List.enum_length] using h), List.getElem_map]
  congr 1
  rw [List.getElem_enum]
  rw [List.getD_eq_getElem _ _ h]

theorem enum_map_eq_range_map (data : List α) (f : ℕ × α → α) :
    data.enum.map f = (List.range data.length).map (fun i => f (i, data.getD i 0)) := by
  refine List.ext_getElem (by simp [List.enum_length]) (fun i hi hi' => ?_)
  have hd : i < data.length := by simpa [List.enum_length] using hi
  rw [List.getElem_map, List.getElem_map, List.getElem_enum, List.getElem_range]
  rw [List.getD_eq_getElem _ _ hd]

theorem enum_map_sum (data : List α) (f : ℕ → α → α) :
    (data.enum.map (fun p => f p.1 p.2)).sum =
      ∑ i ∈ Finset.range data.length, f i (data.getD i 0) := by
  rw [enum_map_eq_range_map, sum_map_list_range]

theorem list_sum_eq_finset_sum (data : List α) :
    data.sum = ∑ i ∈ Finset.range data.length, data.getD i 0 := by
  induction data with
  | nil => simp
  | cons a t ih =>
    rw [List.sum_cons, List.length_cons, Finset.sum_range_succ', ih]
    have : ∀ i : ℕ, (a :: t).getD (i + 1) 0 = t.getD i 0 := fun i => rfl
    simp only [this]
    exact add_comm a _

theorem map_sum_eq_finset_sum (data : List α) (g : α → α) :
    (data.map g).sum = ∑ i ∈ Finset.range data.length, g (data.getD i 0) := by
  induction data with
  | nil => simp
  | cons a t ih =>
    rw [List.map_cons, List.sum_cons, List.length_cons, Finset.sum_range_succ', ih]
    have : ∀ i : ℕ, (a :: t).getD (i + 1) 0 = t.getD i 0 := fun i => rfl
    simp only [this]
    exact add_comm _ _

theorem is_match_templ_mono (data : List α) (i j m : ℕ) (r : α)
    (h : is_match (templ data i (m + 1)) (templ data j (m + 1)) r = true) :
    is_match (templ data i m) (templ data j m) r = true := by
  rw [is_match_templ_iff] at h ⊢
  exact fun t ht => h t (by omega)

theorem detrend_data_getD (data : List α) (i : ℕ) (h : i < data.length) :
    (detrend_data data).getD i 0 =
      data.getD i 0 - alpha_hat data - beta_hat data * ((i : α) + 1) := by
  unfold detrend_data
  exact enum_map_getD data _ i 0 h

theorem mean_eq_finset_sum (data : List α) :
    mean data = (∑ i ∈ Finset.range data.length, data.getD i 0) / (data.length : α) := by
  rw [mean, list_sum_eq_finset_sum]

theorem detrend_numerator_eq (data : List α) :
    detrend_numerator data = ∑ i ∈ Finset.range data.length,
      (((i : α) + 1) - detrend_xbar data) * (data.getD i 0 - mean data) := by
  unfold detrend_numerator
  exact enum_map_sum data (fun i y => ((i : α) + 1 - detrend_xbar data) * (y - mean data))

theorem detrend_denominator_eq (data : List α) :
    detrend_denominator data = ∑ i ∈ Finset.range data.length,
      (((i : α) + 1) - detrend_xbar data) ^ 2 := by
  unfold detrend_denominator
  exact enum_map_sum data (fun i _ => ((i : α) + 1 - detrend_xbar data) ^ 2)

/-! Claim theorems. -/

/-- C3: for every waveform of length `N` and embedding length `k` with
`1 ≤ k ≤ N`, `construct_templates` returns exactly `N - k + 1` templates in
start-offset order, template `i` being `waveform[i..i+k)`; in particular the
two literal regression cases from the `src/stats.rs` tests hold. -/
theorem construct_templates_spec (data : List ℚ) (k : ℕ) (_hk1 : 1 ≤ k)
    (hk2 : k ≤ data.length) :
    (construct_templates k data).length = data.length - k + 1
    ∧ (∀ i, i ≤ data.length - k →
        (construct_templates k data).getD i [] = (data.drop i).take k)
    ∧ construct_templates 1 ([1, 2, 3] : List ℚ) = [[1], [2], [3]]
    ∧ construct_templates 2 ([1, 2, 3, 4, 5] : List ℚ) =
        [[1, 2], [2, 3], [3, 4], [4, 5]] := by
  refine ⟨?_, ?_, by rfl, by rfl⟩
  · rw [length_construct_templates]
    omega
  · intro i hi
    rw [construct_templates_getD k data i (by omega),
      templ_eq_drop_take data i k (by omega)]

/-- Witness for C3 at `k = 2`, `data = [1,2,3,4,5]`. -/
theorem construct_templates_spec_witness :
    (1 ≤ 2 ∧ 2 ≤ ([1, 2, 3, 4, 5] : List ℚ).length)
    ∧ (construct_templates 2 ([1, 2, 3, 4, 5] : List ℚ)).length = 5 - 2 + 1
    ∧ (construct_templates 2 ([1, 2, 3, 4, 5] : List ℚ)).getD 1 [] =
        (([1, 2, 3, 4, 5] : List ℚ).drop 1).take 2 := by
  refine ⟨⟨by decide, by decide⟩, ?_, ?_⟩
  · exact (construct_templates_spec [1, 2, 3, 4, 5] 2 (by decide) (by decide)).1
  · exact (construct_templates_spec [1, 2, 3, 4, 5] 2 (by decide) (by decide)).2.1 1
      (by decide)

/-- C4: for every waveform and fixed tolerance `r`, the match count at
embedding `m + 1` never exceeds the match count at embedding `m`: every
matching `(m+1)`-template pair restricts to a matching pair of the
`m`-prefixes at the same offsets. -/
theorem get_matches_monotone (m : ℕ) (r : ℚ) (data : List ℚ) :
    get_matches (construct_templates (m + 1) data) r ≤
      get_matches (construct_templates m data) r := by
  rw [get_matches_eq_card, get_matches_eq_card]
  refine Nat.mul_le_mul_left 2 (Finset.card_le_card ?_)
  intro q hq
  rw [Finset.mem_filter, Finset.mem_product, Finset.mem_range, Finset.mem_range] at hq ⊢
  obtain ⟨⟨hq1, hq2⟩, hlt, hmatch⟩ := hq
  rw [length_construct_templates] at hq1 hq2
  rw [length_construct_templates]
  have hq1' : q.1 < data.length + 1 - m := by omega
  have hq2' : q.2 < data.length + 1 - m := by omega
  refine ⟨⟨hq1', hq2'⟩, hlt, ?_⟩
  rw [construct_templates_getD m data q.1 hq1',
    construct_templates_getD m data q.2 hq2']
  rw [construct_templates_getD (m + 1) data q.1 hq1,
    construct_templates_getD (m + 1) data q.2 hq2] at hmatch
  exact is_match_templ_mono data q.1 q.2 m r hmatch

/-- C2: for a set of templates at one embedding length (`k ≥ 1` entries of
equal length) and a tolerance `r`, `get_matches` returns twice the number of
unordered pairs `i < j` at Chebyshev distance `< r`, equivalently the number
of ordered pairs `(i, j)`, `i ≠ j`, at Chebyshev distance `< r` (self-pairs
are never counted), and the result is always even. -/
theorem get_matches_counts_pairs (templates : List (List ℚ)) (r : ℚ) (k : ℕ)
    (hk : 1 ≤ k) (hlen : ∀ t ∈ templates, t.length = k) :
    get_matches templates r =
      2 * ((Finset.range templates.length ×ˢ Finset.range templates.length).filter
        (fun q => q.1 < q.2 ∧
          chebyshev_dist (templates.getD q.1 []) (templates.getD q.2 []) < r)).card
    ∧ get_matches templates r =
      ((Finset.range templates.length ×ˢ Finset.range templates.length).filter
        (fun q => q.1 ≠ q.2 ∧
          chebyshev_dist (templates.getD q.1 []) (templates.getD q.2 []) < r)).card
    ∧ Even (get_matches templates r) := by
  have hgetlen : ∀ i, i < templates.length → (templates.getD i []).length = k :=
    fun i hi => hlen _ (getD_mem_of_lt templates i [] hi)
  have hA : get_matches templates r =
      2 * ((Finset.range templates.length ×ˢ Finset.range templates.length).filter
        (fun q => q.1 < q.2 ∧
          chebyshev_dist (templates.getD q.1 []) (templates.getD q.2 []) < r)).card := by
    rw [get_matches_eq_card]
    congr 1
    refine congrArg Finset.card (Finset.filter_congr (fun q hq => ?_))
    rw [Finset.mem_product, Finset.mem_range, Finset.mem_range] at hq
    have h1 : 1 ≤ (templates.getD q.1 []).length := by rw [hgetlen q.1 hq.1]; omega
    exact and_congr_right (fun _ => (chebyshev_dist_lt_iff _ _ r h1).symm)
  refine ⟨hA, ?_, hA ▸ even_two_mul _⟩
  rw [hA]
  have hsplit : ((Finset.range templates.length ×ˢ Finset.range templates.length).filter
      (fun q => q.1 ≠ q.2 ∧
        chebyshev_dist (templates.getD q.1 []) (templates.getD q.2 []) < r)) =
      ((Finset.range templates.length ×ˢ Finset.range templates.length).filter
        (fun q => q.1 < q.2 ∧
          chebyshev_dist (templates.getD q.1 []) (templates.getD q.2 []) < r)) ∪
      ((Finset.range templates.length ×ˢ Finset.range templates.length).filter
        (fun q => q.2 < q.1 ∧
          chebyshev_dist (templates.getD q.1 []) (templates.getD q.2 []) < r)) := by
    rw [← Finset.filter_or]
    refine Finset.filter_congr (fun q _ => ?_)
    constructor
    · rintro ⟨hne, hc⟩
      rcases Nat.lt_or_ge q.1 q.2 with h | h
      · exact Or.inl ⟨h, hc⟩
      · exact Or.inr ⟨by omega, hc⟩
    · rintro (⟨h, hc⟩ | ⟨h, hc⟩)
      · exact ⟨by omega, hc⟩
      · exact ⟨by omega, hc⟩
  rw [hsplit, Finset.card_union_of_disjoint (by
    rw [Finset.disjoint_left]
    rintro q hq hq'
    have h1 := (Finset.mem_filter.mp hq).2.1
    have h2 := (Finset.mem_filter.mp hq').2.1
    omega)]
  have hswap : ((Finset.range templates.length ×ˢ Finset.range templates.length).filter
      (fun q => q.2 < q.1 ∧
        chebyshev_dist (templates.getD q.1 []) (templates.getD q.2 []) < r)).card =
      ((Finset.range templates.length ×ˢ Finset.range templates.length).filter
        (fun q => q.1 < q.2 ∧
          chebyshev_dist (templates.getD q.1 []) (templates.getD q.2 []) < r)).card := by
    refine Finset.card_bij (fun q _ => (q.2, q.1)) ?_ ?_ ?_
    · intro q hq
      rw [Finset.mem_filter, Finset.mem_product, Finset.mem_range, Finset.mem_range] at hq ⊢
      obtain ⟨⟨h1, h2⟩, h3, h4⟩ := hq
      refine ⟨⟨h2, h1⟩, h3, ?_⟩
      rwa [chebyshev_dist_comm _ _ ((hgetlen q.2 h2).trans (hgetlen q.1 h1).symm)]
    · intro q hq q' hq' he
      have h1 : q.2 = q'.2 := congrArg Prod.fst he
      have h2 : q.1 = q'.1 := congrArg Prod.snd he
      exact Prod.ext h2 h1
    · intro p hp
      rw [Finset.mem_filter, Finset.mem_product, Finset.mem_range, Finset.mem_range] at hp
      obtain ⟨⟨h1, h2⟩, h3, h4⟩ := hp
      refine ⟨(p.2, p.1), ?_, rfl⟩
      rw [Finset.mem_filter, Finset.mem_product, Finset.mem_range, Finset.mem_range]
      refine ⟨⟨h2, h1⟩, h3, ?_⟩
      rwa [chebyshev_dist_comm _ _ ((hgetlen p.2 h2).trans (hgetlen p.1 h1).symm)]
  rw [hswap]
  ring

/-- Witness for C2 on three length-1 templates. -/
theorem get_matches_counts_pairs_witness :
    (1 ≤ 1 ∧ ∀ t ∈ ([[0], [1], [10]] : List (List ℚ)), t.length = 1)
    ∧ get_matches ([[0], [1], [10]] : List (List ℚ)) 2 =
      2 * ((Finset.range ([[0], [1], [10]] : List (List ℚ)).length ×ˢ
          Finset.range ([[0], [1], [10]] : List (List ℚ)).length).filter
        (fun q => q.1 < q.2 ∧
          chebyshev_dist (([[0], [1], [10]] : List (List ℚ)).getD q.1 [])
            (([[0], [1], [10]] : List (List ℚ)).getD q.2 []) < 2)).card := by
  refine ⟨⟨by decide, by decide⟩, ?_⟩
  exact (get_matches_counts_pairs [[0], [1], [10]] 2 1 (by decide) (by decide)).1

/-- C6: for every waveform of length `N ≥ 2`, the detrender returns a new
waveform of the same length whose `i`-th sample (0-based `i`, 1-based
position `i + 1`) equals `y_i - (ybar - bh * xb) - bh * (i + 1)`, where
`xb = (N+1)/2`, `ybar` is the mean of the data, and `bh` is the OLS slope
`sum((x_i - xb) * (y_i - ybar)) / sum((x_i - xb)^2)` over 1-based positions. -/
theorem detrend_data_ols (data : List ℚ) (_h2 : 2 ≤ data.length) :
    (detrend_data data).length = data.length
    ∧ ∀ (xb yb bh : ℚ),
        xb = ((data.length : ℚ) + 1) / 2 →
        yb = (∑ j ∈ Finset.range data.length, data.getD j 0) / (data.length : ℚ) →
        bh = (∑ j ∈ Finset.range data.length,
              (((j : ℚ) + 1) - xb) * (data.getD j 0 - yb)) /
            (∑ j ∈ Finset.range data.length, (((j : ℚ) + 1) - xb) ^ 2) →
        ∀ i < data.length,
          (detrend_data data).getD i 0 =
            data.getD i 0 - (yb - bh * xb) - bh * ((i : ℚ) + 1) := by
  refine ⟨length_detrend_data data, ?_⟩
  rintro xb yb bh rfl rfl rfl i hi
  rw [detrend_data_getD data i hi]
  rw [alpha_hat, beta_hat, detrend_numerator_eq, detrend_denominator_eq,
    mean_eq_finset_sum, detrend_xbar]

/-- Witness for C6 at `data = [1, 2]`, `i = 0`. -/
theorem detrend_data_ols_witness :
    2 ≤ ([1, 2] : List ℚ).length
    ∧ (detrend_data ([1, 2] : List ℚ)).length = ([1, 2] : List ℚ).length
    ∧ (detrend_data ([1, 2] : List ℚ)).getD 0 0 =
        ([1, 2] : List ℚ).getD 0 0 -
          (((∑ j ∈ Finset.range ([1, 2] : List ℚ).length,
              ([1, 2] : List ℚ).getD j 0) / (([1, 2] : List ℚ).length : ℚ)) -
            ((∑ j ∈ Finset.range ([1, 2] : List ℚ).length,
                (((j : ℚ) + 1) - ((([1, 2] : List ℚ).length : ℚ) + 1) / 2) *
                  (([1, 2] : List ℚ).getD j 0 -
                    (∑ j ∈ Finset.range ([1, 2] : List ℚ).length,
                      ([1, 2] : List ℚ).getD j 0) / (([1, 2] : List ℚ).length : ℚ))) /
              (∑ j ∈ Finset.range ([1, 2] : List ℚ).length,
                (((j : ℚ) + 1) - ((([1, 2] : List ℚ).length : ℚ) + 1) / 2) ^ 2)) *
            ((([1, 2] : List ℚ).length : ℚ) + 1) / 2) -
          ((∑ j ∈ Finset.range ([1, 2] : List ℚ).length,
              (((j : ℚ) + 1) - ((([1, 2] : List ℚ).length : ℚ) + 1) / 2) *
                (([1, 2] : List ℚ).getD j 0 -
                  (∑ j ∈ Finset.range ([1, 2] : List ℚ).length,
                    ([1, 2] : List ℚ).getD j 0) / (([1, 2] : List ℚ).length : ℚ))) /
            (∑ j ∈ Finset.range ([1, 2] : List ℚ).length,
              (((j : ℚ) + 1) - ((([1, 2] : List ℚ).length : ℚ) + 1) / 2) ^ 2)) *
            (((0 : ℕ) : ℚ) + 1) := by
  refine ⟨by decide, (detrend_data_ols [1, 2] (by decide)).1, ?_⟩
  have h := (detrend_data_ols [1, 2] (by decide)).2
    (((([1, 2] : List ℚ).length : ℚ) + 1) / 2)
    ((∑ j ∈ Finset.range ([1, 2] : List ℚ).length,
      ([1, 2] : List ℚ).getD j 0) / (([1, 2] : List ℚ).length : ℚ))
    ((∑ j ∈ Finset.range ([1, 2] : List ℚ).length,
        (((j : ℚ) + 1) - ((([1, 2] : List ℚ).length : ℚ) + 1) / 2) *
          (([1, 2] : List ℚ).getD j 0 -
            (∑ j ∈ Finset.range ([1, 2] : List ℚ).length,
              ([1, 2] : List ℚ).getD j 0) / (([1, 2] : List ℚ).length : ℚ))) /
      (∑ j ∈ Finset.range ([1, 2] : List ℚ).length,
        (((j : ℚ) + 1) - ((([1, 2] : List ℚ).length : ℚ) + 1) / 2) ^ 2))
    rfl rfl rfl 0 (by decide)
  calc (detrend_data ([1, 2] : List ℚ)).getD 0 0 = _ := h
  _ = _ := by ring

/-- C5: for every channel, the tolerance passed to the estimator is
`0.2 * sqrt(mean((x - mean x)^2))` of that channel's own detrended waveform,
recomputed per channel with no cross-channel sharing: each channel's entropy
depends only on that channel's waveform. -/
theorem tolerance_per_channel (m : ℕ) (vf : VitalFile) :
    ((compute_sampen_for_vital_file m vf).sbp_sampen =
      sample_entropy m
        (0.2 * Real.sqrt
          ((∑ i ∈ Finset.range (detrend_data vf.sbp).length,
            ((detrend_data vf.sbp).getD i 0 -
              (∑ j ∈ Finset.range (detrend_data vf.sbp).length,
                (detrend_data vf.sbp).getD j 0) / ((detrend_data vf.sbp).length : ℝ)) ^ 2) /
            ((detrend_data vf.sbp).length : ℝ)))
        (detrend_data vf.sbp))
    ∧ ((compute_sampen_for_vital_file m vf).mbp_sampen =
      sample_entropy m
        (0.2 * Real.sqrt
          ((∑ i ∈ Finset.range (detrend_data vf.mbp).length,
            ((detrend_data vf.mbp).getD i 0 -
              (∑ j ∈ Finset.range (detrend_data vf.mbp).length,
                (detrend_data vf.mbp).getD j 0) / ((detrend_data vf.mbp).length : ℝ)) ^ 2) /
            ((detrend_data vf.mbp).length : ℝ)))
        (detrend_data vf.mbp))
    ∧ ((compute_sampen_for_vital_file m vf).dbp_sampen =
      sample_entropy m
        (0.2 * Real.sqrt
          ((∑ i ∈ Finset.range (detrend_data vf.dbp).length,
            ((detrend_data vf.dbp).getD i 0 -
              (∑ j ∈ Finset.range (detrend_data vf.dbp).length,
                (detrend_data vf.dbp).getD j 0) / ((detrend_data vf.dbp).length : ℝ)) ^ 2) /
            ((detrend_data vf.dbp).length : ℝ)))
        (detrend_data vf.dbp))
    ∧ (∀ vf' : VitalFile, vf.sbp = vf'.sbp →
        (compute_sampen_for_vital_file m vf).sbp_sampen =
          (compute_sampen_for_vital_file m vf').sbp_sampen)
    ∧ (∀ vf' : VitalFile, vf.mbp = vf'.mbp →
        (compute_sampen_for_vital_file m vf).mbp_sampen =
          (compute_sampen_for_vital_file m vf').mbp_sampen)
    ∧ (∀ vf' : VitalFile, vf.dbp = vf'.dbp →
        (compute_sampen_for_vital_file m vf).dbp_sampen =
          (compute_sampen_for_vital_file m vf').dbp_sampen) := by
  have key : ∀ w : List ℝ, compute_sampen_for_wave m w =
      sample_entropy m
        (0.2 * Real.sqrt
          ((∑ i ∈ Finset.range w.length,
            (w.getD i 0 - (∑ j ∈ Finset.range w.length, w.getD j 0) / (w.length : ℝ)) ^ 2) /
            (w.length : ℝ))) w := by
    intro w
    have hr : standard_deviation w * 0.2 =
        0.2 * Real.sqrt
          ((∑ i ∈ Finset.range w.length,
            (w.getD i 0 - (∑ j ∈ Finset.range w.length, w.getD j 0) / (w.length : ℝ)) ^ 2) /
            (w.length : ℝ)) := by
      rw [standard_deviation, map_sum_eq_finset_sum, mean_eq_finset_sum, mul_comm]
    rw [compute_sampen_for_wave, hr]
  refine ⟨key (detrend_data vf.sbp), key (detrend_data vf.mbp), key (detrend_data vf.dbp),
    ?_, ?_, ?_⟩
  · intro vf' h
    simp only [compute_sampen_for_vital_file]
    rw [h]
  · intro vf' h
    simp only [compute_sampen_for_vital_file]
    rw [h]
  · intro vf' h
    simp only [compute_sampen_for_vital_file]
    rw [h]

/-- Witness for C5: two subjects sharing the sbp channel get the same sbp
entropy regardless of the other channels. -/
theorem tolerance_per_channel_witness :
    (VitalFile.mk "a" [1, 2] [3] [4]).sbp = (VitalFile.mk "b" [1, 2] [5, 6] [7]).sbp
    ∧ (compute_sampen_for_vital_file 2 (VitalFile.mk "a" [1, 2] [3] [4])).sbp_sampen =
      (compute_sampen_for_vital_file 2 (VitalFile.mk "b" [1, 2] [5, 6] [7])).sbp_sampen :=
  ⟨rfl, (tolerance_per_channel 2 (VitalFile.mk "a" [1, 2] [3] [4])).2.2.2.1
    (VitalFile.mk "b" [1, 2] [5, 6] [7]) rfl⟩

/-- C1 (amended): the estimator performs no zero-count check.  When the count
at embedding `m` is zero it returns the silent IEEE result - NaN if the count
at `m + 1` is also zero (`0/0`), otherwise `-inf` (`-ln(+inf)`) - and when
only the count at `m + 1` is zero it returns `+inf` (`-ln 0`).  In all these
cases no finite value and no error is produced; the code has no
DegenerateMatch error channel. -/
theorem sample_entropy_zero_count_values (m : ℕ) (r : ℚ) (data : List ℚ)
    (h : get_matches (construct_templates m data) r = 0 ∨
      get_matches (construct_templates (m + 1) data) r = 0) :
    sample_entropy m r data =
      (if get_matches (construct_templates m data) r = 0 then
        (if get_matches (construct_templates (m + 1) data) r = 0 then SampenResult.nan
          else SampenResult.negInf)
        else SampenResult.posInf)
    ∧ ∀ x : ℝ, sample_entropy m r data ≠ SampenResult.val x := by
  have hse : sample_entropy m r data =
      sampenOfCounts (get_matches (construct_templates (m + 1) data) r)
        (get_matches (construct_templates m data) r) := rfl
  constructor
  · rw [hse]
    by_cases hm : get_matches (construct_templates m data) r = 0
    · rw [if_pos hm]
      by_cases hm1 : get_matches (construct_templates (m + 1) data) r = 0
      · rw [if_pos hm1]
        simp [sampenOfCounts, hm, hm1]
      · rw [if_neg hm1]
        simp [sampenOfCounts, hm, hm1]
    · have hm1 : get_matches (construct_templates (m + 1) data) r = 0 :=
        h.resolve_left hm
      rw [if_neg hm]
      simp [sampenOfCounts, hm, hm1]
  · intro x
    rw [hse]
    by_cases hm : get_matches (construct_templates m data) r = 0
    · by_cases hm1 : get_matches (construct_templates (m + 1) data) r = 0
      · simp [sampenOfCounts, hm, hm1]
      · simp [sampenOfCounts, hm, hm1]
    · have hm1 : get_matches (construct_templates (m + 1) data) r = 0 :=
        h.resolve_left hm
      simp [sampenOfCounts, hm, hm1]

/-- Witness for C1 (amended) at `m = 2`, `r = 1`, `data = [1, 2]` (a single
`m`-template, so the `m`-count is zero). -/
theorem sample_entropy_zero_count_values_witness :
    (get_matches (construct_templates 2 ([1, 2] : List ℚ)) 1 = 0 ∨
      get_matches (construct_templates 3 ([1, 2] : List ℚ)) 1 = 0)
    ∧ sample_entropy 2 (1 : ℚ) [1, 2] =
      (if get_matches (construct_templates 2 ([1, 2] : List ℚ)) 1 = 0 then
        (if get_matches (construct_templates 3 ([1, 2] : List ℚ)) 1 = 0 then
          SampenResult.nan
          else SampenResult.negInf)
        else SampenResult.posInf) :=
  ⟨Or.inl rfl, (sample_entropy_zero_count_values 2 1 [1, 2] (Or.inl rfl)).1⟩

/-- Counterexample to C1 as stated: at `m = 2`, `r = 0`, waveform
`[1, 2, 3, 4]`, the match count at embedding `m` is zero, yet the estimator
returns the value NaN silently instead of signalling a DegenerateMatch
error. -/
theorem sample_entropy_zero_count_counterexample :
    get_matches (construct_templates 2 ([1, 2, 3, 4] : List ℚ)) 0 = 0
    ∧ sample_entropy 2 (0 : ℚ) [1, 2, 3, 4] = SampenResult.nan := by
  have hm : get_matches (construct_templates 2 ([1, 2, 3, 4] : List ℚ)) 0 = 0 :=
    get_matches_eq_zero_of_nonpos _ 0 le_rfl
      (fun t ht => by rw [mem_construct_templates_length ht]; omega)
  have hm1 : get_matches (construct_templates 3 ([1, 2, 3, 4] : List ℚ)) 0 = 0 :=
    get_matches_eq_zero_of_nonpos _ 0 le_rfl
      (fun t ht => by rw [mem_construct_templates_length ht]; omega)
  refine ⟨hm, ?_⟩
  have hse : sample_entropy 2 (0 : ℚ) [1, 2, 3, 4] =
      sampenOfCounts (get_matches (construct_templates 3 ([1, 2, 3, 4] : List ℚ)) 0)
        (get_matches (construct_templates 2 ([1, 2, 3, 4] : List ℚ)) 0) := rfl
  rw [hse, hm, hm1]
  simp [sampenOfCounts]

/-- C7 (amended): for a waveform of length `N < m + 2` there is at most one
`(m+1)`-template, so the `(m+1)`-count is zero and `sample_entropy` still
returns a value - NaN if the `m`-count is also zero (`0/0`), else `+inf`
(`-ln 0`) - instead of any InsufficientData error; no out-of-bounds indexing
occurs because `construct_templates` simply yields a short (possibly empty)
template list. -/
theorem insufficient_data_no_error (m : ℕ) (r : ℚ) (data : List ℚ)
    (h : data.length < m + 2) :
    get_matches (construct_templates (m + 1) data) r = 0
    ∧ (sample_entropy m r data = SampenResult.nan ∨
        sample_entropy m r data = SampenResult.posInf) := by
  have hlen : (construct_templates (m + 1) data).length ≤ 1 := by
    rw [length_construct_templates]
    omega
  have hm1 := get_matches_eq_zero_of_le_one (construct_templates (m + 1) data) r hlen
  refine ⟨hm1, ?_⟩
  have hse : sample_entropy m r data =
      sampenOfCounts (get_matches (construct_templates (m + 1) data) r)
        (get_matches (construct_templates m data) r) := rfl
  rw [hse, hm1]
  by_cases hm : get_matches (construct_templates m data) r = 0
  · left
    simp [sampenOfCounts, hm]
  · right
    simp [sampenOfCounts, hm]

/-- Witness for C7 (amended) at `m = 2`, `r = 1`, `data = [5, 6]`. -/
theorem insufficient_data_no_error_witness :
    ([5, 6] : List ℚ).length < 2 + 2
    ∧ get_matches (construct_templates 3 ([5, 6] : List ℚ)) 1 = 0 :=
  ⟨by decide, (insufficient_data_no_error 2 1 [5, 6] (by decide)).1⟩

/-- Counterexample to C7 as stated: at `m = 2` and the length-2 waveform
`[0, 0]` (so `N < m + 2`), template construction in `src/main.rs` does not
fail - it returns the empty list - and the estimator still returns the value
NaN rather than an InsufficientData error; only the `src/stats.rs` variant
fails, by `usize` underflow, not by a defined error. -/
theorem insufficient_data_counterexample :
    construct_templates 3 ([0, 0] : List ℚ) = []
    ∧ sample_entropy 2 (1 : ℚ) [0, 0] = SampenResult.nan
    ∧ Stats.construct_templates 3 ([0, 0] : List ℚ) = none := by
  refine ⟨by rfl, ?_, by rfl⟩
  have hse : sample_entropy 2 (1 : ℚ) [0, 0] =
      sampenOfCounts (get_matches (construct_templates 3 ([0, 0] : List ℚ)) 1)
        (get_matches (construct_templates 2 ([0, 0] : List ℚ)) 1) := rfl
  have h1 : get_matches (construct_templates 3 ([0, 0] : List ℚ)) 1 = 0 := rfl
  have h2 : get_matches (construct_templates 2 ([0, 0] : List ℚ)) 1 = 0 := rfl
  rw [hse, h1, h2]
  simp [sampenOfCounts]

/-- C8 (amended): for a waveform of length `N < 2` the detrender signals
nothing: it returns a list of the same length `N`, with the slope computed as
`numerator / denominator` where the denominator sum is `0` (`0/0`, NaN in the
IEEE `f32` computation; division by zero in the exact model). -/
theorem detrend_short_no_error (data : List ℚ) (h : data.length < 2) :
    (detrend_data data).length = data.length ∧ detrend_denominator data = 0 := by
  refine ⟨length_detrend_data data, ?_⟩
  rcases data with - | ⟨a, rest⟩
  · simp [detrend_denominator]
  · rcases rest with - | ⟨b, t⟩
    · rw [detrend_denominator_eq]
      simp [detrend_xbar]
    · exfalso
      simp at h
      omega

/-- Witness for C8 (amended) at the empty waveform. -/
theorem detrend_short_no_error_witness :
    ([] : List ℚ).length < 2
    ∧ (detrend_data ([] : List ℚ)).length = ([] : List ℚ).length
    ∧ detrend_denominator ([] : List ℚ) = 0 :=
  ⟨by decide, (detrend_short_no_error [] (by decide)).1,
    (detrend_short_no_error [] (by decide)).2⟩

/-- Counterexample to C8 as stated: on the length-1 waveform `[5]` the
denominator sum is `0`, yet `detrend_data` returns an ordinary length-1 list
(no error is signalled; the `f32` code divides by zero and produces NaN
samples). -/
theorem detrend_short_counterexample :
    detrend_denominator ([5] : List ℚ) = 0
    ∧ (detrend_data ([5] : List ℚ)).length = 1 := by
  constructor
  · rw [detrend_denominator_eq]
    simp [detrend_xbar]
  · rw [length_detrend_data]
    rfl

/-- C10: for every `m ≥ 1`, tolerance `r` and waveform of length at least
`m + 1`, the duplicated functions of `src/main.rs` agree with the refactored
ones of `src/stats.rs`: template construction coincides (the `Stats` variant
succeeds), `is_match` agrees on equal-length vectors, `get_matches` agrees on
any uniform-length template set, and the two `sample_entropy` implementations
are extensionally equal. -/
theorem main_stats_equivalence (m : ℕ) (r : ℚ) (data : List ℚ) (_hm : 1 ≤ m)
    (hlen : m + 1 ≤ data.length) :
    Stats.construct_templates m data = some (construct_templates m data)
    ∧ Stats.construct_templates (m + 1) data = some (construct_templates (m + 1) data)
    ∧ (∀ v1 v2 : List ℚ, v1.length = v2.length →
        Stats.is_match v1 v2 r = is_match v1 v2 r)
    ∧ (∀ (ts : List (List ℚ)) (k : ℕ), (∀ t ∈ ts, t.length = k) →
        Stats.get_matches ts r = get_matches ts r)
    ∧ Stats.sample_entropy m r data = some (sample_entropy m r data) :=
  ⟨stats_construct_templates_eq m data (by omega),
    stats_construct_templates_eq (m + 1) data hlen,
    fun v1 v2 h => stats_is_match_eq v1 v2 r (le_of_eq h),
    fun ts k hk => stats_get_matches_eq ts r k hk,
    stats_sample_entropy_eq m r data hlen⟩

/-- Witness for C10 at `m = 1`, `r = 1`, `data = [0, 0, 0]`. -/
theorem main_stats_equivalence_witness :
    (1 ≤ 1 ∧ 1 + 1 ≤ ([0, 0, 0] : List ℚ).length)
    ∧ Stats.construct_templates 1 ([0, 0, 0] : List ℚ) =
        some (construct_templates 1 ([0, 0, 0] : List ℚ))
    ∧ Stats.sample_entropy 1 (1 : ℚ) [0, 0, 0] =
        some (sample_entropy 1 (1 : ℚ) ([0, 0, 0] : List ℚ)) := by
  refine ⟨⟨by decide, by decide⟩, ?_, ?_⟩
  · exact (main_stats_equivalence 1 1 [0, 0, 0] (by decide) (by decide)).1
  · exact (main_stats_equivalence 1 1 [0, 0, 0] (by decide) (by decide)).2.2.2.2

end SampleEntropy
